import Mathlib

/-!
Verification of the cargo-rtic-scope repository against its specification.

The Rust sources are shallowly embedded: each Rust function relevant to a
claim becomes a Lean definition mirroring its control flow, with external
collaborators (the `syn`/`rtic-syntax` parsers, `serde_json`, `libc`,
`probe-rs`, the decoder of `itm_decode`, the file system and git) modelled
as explicit data or function parameters.
-/

namespace Parse

/-!
Embedding of `cargo-rtic-trace/src/parse.rs`.

`syn::Item` is restricted to the constructors `traverse_item` inspects:
function items (`syn::Item::Fn`, carrying the statements of their block),
module items (`syn::Item::Mod`, whose content is optional, as in `syn`),
and everything else.  A `syn::Stmt` either declares a nested item or is
some other statement (`traverse_item` keeps only `syn::Stmt::Item` via
`filter_map`).  A `#[trace]` attribute on a function becomes the Boolean
`traced`.  Identifiers are strings.
-/

mutual

inductive Item where
  | fn (name : String) (traced : Bool) (stmts : List Stmt)
  | md (name : String) (content : Option (List Item))
  | other
  deriving Repr

inductive Stmt where
  | item (it : Item)
  | othr
  deriving Repr

end

/-- Software-task id → full path, mirroring `SwAssocs = BTreeMap<usize, Vec<Ident>>`.
The `BTreeMap` is modelled as the association list in insertion order; the
keys inserted by `traverse_item` are strictly increasing, so insertion
order and key order agree. -/
abbrev SwAssocs := List (Nat × List String)

mutual

/-- `traverse_item` from `parse.rs`: depth-first walk of an item.  The Rust
code mutates `ctx` (push/pop), `assocs` and the monotonic counter `id_gen`;
here the context is passed down and the pop is implicit, and the function
returns the updated `assocs` and counter. -/
def traverse_item (it : Item) (ctx : List String) (assocs : SwAssocs) (gen : Nat) :
    SwAssocs × Nat :=
  match it with
  | .fn name traced stmts =>
    -- record the full path of the function
    let ctx' := ctx ++ [name]
    -- is the function decorated with #[trace]?
    let (assocs', gen') := if traced then (assocs ++ [(gen, ctx')], gen + 1) else (assocs, gen)
    -- walk down all other nested functions
    traverse_stmts stmts ctx' assocs' gen'
  | .md name content =>
    match content with
    | some items => traverse_items items (ctx ++ [name]) assocs gen
    | none => (assocs, gen)
  | .other => (assocs, gen)

/-- The loop over `fun.block.stmts`, with the `filter_map` keeping only
statement-level items. -/
def traverse_stmts (stmts : List Stmt) (ctx : List String) (assocs : SwAssocs) (gen : Nat) :
    SwAssocs × Nat :=
  match stmts with
  | [] => (assocs, gen)
  | .item it :: rest =>
    let (a, g) := traverse_item it ctx assocs gen
    traverse_stmts rest ctx a g
  | .othr :: rest => traverse_stmts rest ctx assocs gen

/-- The loop over a module's items. -/
def traverse_items (items : List Item) (ctx : List String) (assocs : SwAssocs) (gen : Nat) :
    SwAssocs × Nat :=
  match items with
  | [] => (assocs, gen)
  | it :: rest =>
    let (a, g) := traverse_item it ctx assocs gen
    traverse_items rest ctx a g

end

/-- `TaskResolver::software_tasks`, after the app tokens have been parsed
into a single `syn::Item`: run `traverse_item` from the empty context,
empty map and counter 0. -/
def software_tasks (app : Item) : SwAssocs :=
  (traverse_item app [] [] 0).1

mutual

/-- Number of `#[trace]`-marked functions inside an item (depth-first). -/
def count_item : Item → Nat
  | .fn _ traced stmts => (if traced then 1 else 0) + count_stmts stmts
  | .md _ (some items) => count_items items
  | .md _ none => 0
  | .other => 0

def count_stmts : List Stmt → Nat
  | [] => 0
  | .item it :: rest => count_item it + count_stmts rest
  | .othr :: rest => count_stmts rest

def count_items : List Item → Nat
  | [] => 0
  | it :: rest => count_item it + count_items rest

end

/-!
Embedding of `TaskResolver::hardware_tasks` (parse.rs).

`rtic_syntax::parse2` (an external collaborator) yields the application's
hardware tasks: each has a name (the key of `app.hardware_tasks`) and the
exception name it binds (`hwt.args.binds`), plus the `device = ...`
argument as its path segments.  `resolve_int_nrs` compiles and loads an
auxiliary cdylib and calls one generated function per bound interrupt; the
numbers such a function returns are modelled by the `oracle` parameter,
and the fact that the build collaborator ran at all by a Boolean in the
result.  The `BTreeMap`s are modelled as the association lists produced
by the corresponding `filter_map`s, in iteration order.
-/

/-- A hardware task recovered by the RTIC parser. -/
structure HwTask where
  name : String
  binds : String
  deriving Repr, DecidableEq

abbrev TaskPath := List String
abbrev InternalHwAssocs := List (String × TaskPath)
abbrev ExternalHwAssocs := List (Nat × (TaskPath × String))

/-- The ten architecture-internal exception names hard-coded in
`TaskResolver::hardware_tasks`. -/
def internalExceptions : List String :=
  ["Reset", "NMI", "HardFault", "MemManage", "BusFault", "UsageFault",
   "SVCall", "DebugMonitor", "PendSV", "SysTick"]

/-- The partition of all bound exception names: `int_binds` are those found
in the internal-exception array, `ext_binds` the rest. -/
def int_binds (tasks : List HwTask) : List String :=
  ((tasks.map HwTask.binds).partition (fun bind => internalExceptions.contains bind)).1

def ext_binds (tasks : List HwTask) : List String :=
  ((tasks.map HwTask.binds).partition (fun bind => internalExceptions.contains bind)).2

/-- `TaskResolver::resolve_int_nrs`: generates one function per bound
interrupt name, builds and loads the auxiliary library, and calls each
function exactly once.  The number returned by the target-specific
function for a name is `oracle` of that name. -/
def resolve_int_nrs (binds : List String) (oracle : String → Nat) : List (String × Nat) :=
  binds.map (fun b => (b, oracle b))

/-- The `int_assocs` map of `hardware_tasks`: tasks whose bind occurs in
`int_binds`, keyed by the bound name, with path `[app, name]`. -/
def int_assocs (tasks : List HwTask) : InternalHwAssocs :=
  tasks.filterMap (fun t =>
    if ((int_binds tasks).find? (fun b => b = t.binds)).isSome then
      some (t.binds, ["app", t.name])
    else none)

/-- The `ext_assocs` map of `hardware_tasks`: tasks whose bind resolves in
`excpt_nrs`, keyed by the resolved number, carrying the path and the bound
name. -/
def ext_assocs (tasks : List HwTask) (excpt_nrs : List (String × Nat)) : ExternalHwAssocs :=
  tasks.filterMap (fun t =>
    match excpt_nrs.lookup t.binds with
    | some n => some (n, (["app", t.name], t.binds))
    | none => none)

/-- `TaskResolver::hardware_tasks`.  The returned Boolean records whether
`resolve_int_nrs` (and hence the auxiliary build) ran. -/
def hardware_tasks (tasks : List HwTask) (deviceArg : Option (List String))
    (oracle : String → Nat) : Except String (Bool × InternalHwAssocs × ExternalHwAssocs) :=
  match deviceArg with
  | none => .error "expected argument #[app(device = ...)] is missing"
  | some segs =>
    let nrsRes : Except String (Bool × List (String × Nat)) :=
      if (ext_binds tasks).isEmpty then .ok (false, [])
      else
        match segs with
        | [_crateName] => .ok (true, resolve_int_nrs (ext_binds tasks) oracle)
        | [_crateName, _crateFeature] => .ok (true, resolve_int_nrs (ext_binds tasks) oracle)
        | _ => .error "argument passed to #[app(device = ...)] cannot be parsed"
    match nrsRes with
    | .error e => .error e
    | .ok (built, excpt_nrs) => .ok (built, int_assocs tasks, ext_assocs tasks excpt_nrs)

/-!
Embedding of `TaskResolver::new` (parse.rs).

The tokenized source (`proc_macro2::TokenStream`) is a list of token
trees; `new` only distinguishes delimited groups (with their inner stream)
from everything else (idents, punctuation, literals), of which only the
textual rendering matters.  A delimited group renders with its delimiters,
so its `to_string` is never the bare identifier `app`.
-/

inductive Token where
  | group (inner : List Token)
  | tok (s : String)
  deriving Repr

/-- `TokenTree::to_string` as far as `new` consults it. -/
def Token.toStr : Token → String
  | .group _ => "(...)"
  | .tok s => s

/-- Outcome of `TaskResolver::new`: either a panic (an `unwrap` failed) or
the recovered `app_args` and `app` token streams.  The `Err` results of
the Rust signature arise only from file I/O and tokenization, which happen
before the token scan; they are not modelled. -/
inductive NewOutcome where
  | panic
  | ok (appArgs : List Token) (app : List Token)
  deriving Repr

/-- The `skip_while` scan of `new`: skip any non-group token and any group
whose first token does not render as `app`.  Returns `none` when the
predicate itself panics (`g.stream().into_iter().nth(0).unwrap()` on an
empty group), `some none` when the stream is exhausted (so the following
`next().unwrap()` panics), and `some (some (inner, rest))` for the app
group's stream and the remaining tokens. -/
def find_app : List Token → Option (Option (List Token × List Token))
  | [] => some none
  | .tok _ :: rest => find_app rest
  | .group inner :: rest =>
    match inner with
    | [] => none
    | first :: _ =>
      if first.toStr = "app" then some (some (inner, rest))
      else find_app rest

/-- `TaskResolver::new` after tokenization: locate the app group, take its
second token (`nth(1).unwrap()`), and require it to be a group, whose
stream becomes `app_args`; the tokens after the app group become `app`. -/
def TaskResolver.new (tokens : List Token) : NewOutcome :=
  match find_app tokens with
  | none => .panic
  | some none => .panic
  | some (some (inner, rest)) =>
    match inner[1]? with
    | none => .panic
    | some (Token.tok _) => .panic
    | some (Token.group args) => .ok args rest

/-- The precondition under which `TaskResolver::new` does not panic,
transcribed from the claim: the stream contains a delimited group whose
first token renders as `app`, every delimited group before it is
non-empty, and the app group's second token exists and is itself a
group. -/
def new_precondition : List Token → Bool
  | [] => false
  | .tok _ :: rest => new_precondition rest
  | .group [] :: _ => false
  | .group (first :: more) :: rest =>
    if first.toStr = "app" then
      match more with
      | .group _ :: _ => true
      | _ => false
    else new_precondition rest

end Parse

namespace Sinks

/-!
Embedding of `src/sinks.rs`.

`FrontendSink::drain` resolves a batch through `Metadata::resolve_event_chunk`
(a collaborator from `recovery.rs`, passed as the function `resolve`),
serializes the resolved chunk with `serde_json::to_string` (`toJson`) and
writes it to the socket (`write`).  The outcome records the returned
`Result`, the `(packets, reason)` pairs printed to stderr, and the strings
written to the socket.
-/

inductive DrainError (SerErr IOErr : Type) where
  | ser (e : SerErr)
  | io (e : IOErr)
  deriving Repr, DecidableEq

/-- `FrontendSink::drain`. -/
def FrontendSink.drain {T Ev RErr SerErr IOErr : Type}
    (resolve : T → Except RErr Ev)
    (toJson : Ev → Except SerErr String)
    (write : String → Except IOErr Unit)
    (packets : T) :
    Except (DrainError SerErr IOErr) Unit × List (T × RErr) × List String :=
  match resolve packets with
  | .ok ev =>
    match toJson ev with
    | .error e => (.error (.ser e), [], [])
    | .ok json =>
      match write json with
      | .ok _ => (.ok (), [], [json])
      | .error e => (.error (.io e), [], [])
  | .error e => (.ok (), [(packets, e)], [])

/-!
Embedding of `FileSink::generate_trace_file` and `find_trace_files`.

The file system is a list of directory entries.  The abbreviated git
describe string (which carries the `-dirty` suffix or the fallback commit
id, produced by the git collaborator) and the formatted local timestamp
(`%Y-%m-%dT%H:%M:%S`, second precision) are parameters.
-/

structure DirEntry where
  name : String
  isFile : Bool
  deriving Repr, DecidableEq

def TRACE_FILE_EXT : String := ".trace"

/-- `find_trace_files`: the files (not directories) of the directory whose
names end in `.trace`. -/
def find_trace_files (entries : List DirEntry) : List String :=
  entries.filterMap (fun e =>
    if e.isFile && e.name.endsWith TRACE_FILE_EXT then some e.name else none)

inductive GenError where
  | createNewFailed
  deriving Repr, DecidableEq

/-- The `remove_prev_traces` prologue of `generate_trace_file`: delete
every file returned by `find_trace_files`. -/
def clear_prev_traces (entries : List DirEntry) (removePrev : Bool) : List DirEntry :=
  if removePrev then
    entries.filter (fun e => !(e.isFile && e.name.endsWith TRACE_FILE_EXT))
  else entries

/-- `FileSink::generate_trace_file`: optionally clear previous traces,
build the file name `<artifact>-g<shortdesc>-<date>.trace`, then open it
with `create_new(true)`, which fails if the name already exists. -/
def generate_trace_file (entries : List DirEntry) (artifactName gitShortdesc date : String)
    (removePrev : Bool) : Except GenError (List DirEntry × String) :=
  let entries' := clear_prev_traces entries removePrev
  let fname := artifactName ++ "-g" ++ gitShortdesc ++ "-" ++ date ++ TRACE_FILE_EXT
  if entries'.any (fun e => e.name = fname) then .error .createNewFailed
  else .ok (entries' ++ [⟨fname, true⟩], fname)

end Sinks

namespace Tty

/-!
Embedding of `cargo-rtic-scope/src/sources/tty.rs`.
-/

/-- `crate::sources::BufferStatus`. -/
inductive BufferStatus where
  | availWarn (avail : Int) (page : Int)
  | avail (n : Int)
  | unknown
  deriving Repr, DecidableEq

/-- `TTYSource::avail_buffer`: `fionread` is the queued-byte count from the
`FIONREAD` ioctl (`none` = the ioctl failed), `pageSize` the result of
`sysconf(PAGE_SIZE)` (`none` = unsupported/failed).  Rust's `i64` division
truncates toward zero, as does `Int.tdiv`. -/
def avail_buffer (fionread : Option Int) (pageSize : Option Int) : BufferStatus :=
  match fionread with
  | none => .unknown
  | some availBytes =>
    match pageSize with
    | some page =>
      if page - availBytes < Int.tdiv page 4 then .availWarn (page - availBytes) page
      else .avail (page - availBytes)
    | none => .unknown

/-- The subset of `termios` state that `configure` manipulates; the four
flag registers are raw bit sets. -/
structure Termios where
  inputFlags : Nat
  outputFlags : Nat
  controlFlags : Nat
  localFlags : Nat
  ispeed : Nat
  ospeed : Nat
  vtime : Nat
  vmin : Nat
  deriving Repr, DecidableEq

/-- `configure` from tty.rs, after the device is opened: each of the four
flag registers is ORed with a union of `libc` set-constants and ANDed
against the complement of a union of clear-constants (the unions are the
platform-defined masks `inputSet`, `inputClear`, ...); `cfsetspeed` sets
the input and output line speed to the `B115200` constant, i.e. 115200
baud; `VTIME` is set to 2 and `VMIN` to 100.  No session option reaches
this function: the requested baud rate is not a parameter. -/
def configure (inputSet inputClear outputSet outputClear controlSet controlClear
    localSet localClear : Nat) (s : Termios) : Termios :=
  { inputFlags := Nat.ldiff (s.inputFlags ||| inputSet) inputClear
    outputFlags := Nat.ldiff (s.outputFlags ||| outputSet) outputClear
    controlFlags := Nat.ldiff (s.controlFlags ||| controlSet) controlClear
    localFlags := Nat.ldiff (s.localFlags ||| localSet) localClear
    ispeed := 115200
    ospeed := 115200
    vtime := 2
    vmin := 100 }

end Tty

namespace Probe

/-!
Embedding of `cargo-rtic-scope/src/sources/probe.rs`.

The `itm_decode::Decoder` is a collaborator: a state of type `D` with a
`push` accepting raw bytes and a `pull_with_timestamp` yielding an
optional completed batch plus the successor state.  The successive
results of the blocking `read_swo()` calls are given as a list; the outer
`Option` of the result distinguishes a loop still running when that list
is exhausted (`none`) from a terminating iteration step (`some r`), `r`
being the `Option<Result<TraceData, SourceError>>` that `next()` returns.
-/

def ProbeSource.next {D T E : Type} (push : D → List Nat → D)
    (pull : D → Option T × D) :
    List (Except E (List Nat)) → D → Option (Option (Except E T))
  | [], _ => none
  | .error e :: _, _ => some (some (.error e))
  | .ok bytes :: rs, d =>
    match pull (push d bytes) with
    | (some packets, _) => some (some (.ok packets))
    | (none, d2) => ProbeSource.next push pull rs d2


end Probe

namespace JsonModel

/-!
A model of the compact JSON encoding used by `serde_json::to_string` (a
collaborator the spec lists as external), as far as the trace-file format
needs it: values are null, booleans, non-negative numbers, strings,
arrays and objects; a struct such as `Metadata` or
`TimestampedTracePackets` serializes as an object.  The serializer
escapes `"` and `\` in strings (the `\u` escapes serde emits for control
characters are not modelled).  The parser is a recursive-descent reader
of exactly this grammar, with a fuel argument standing in for the
termination measure.
-/

inductive Json where
  | jnull
  | jbool (b : Bool)
  | jnum (n : Nat)
  | jstr (chars : List Char)
  | jarr (items : List Json)
  | jobj (props : List (List Char × Json))
  deriving Repr

/-- String escaping: `"` and `\` are backslash-escaped. -/
def escChar (c : Char) : List Char :=
  if c = '"' ∨ c = '\\' then ['\\', c] else [c]

/-- A JSON string literal: quote, escaped characters, quote. -/
def serStr (s : List Char) : List Char :=
  '"' :: (s.flatMap escChar ++ ['"'])

/-- Decimal digits of `n`, least significant first; the first argument is
fuel (`n` itself suffices). -/
def natToRevDigits : Nat → Nat → List Nat
  | 0, _ => []
  | fuel + 1, n => if n = 0 then [] else n % 10 :: natToRevDigits fuel (n / 10)

def digitChar (d : Nat) : Char := Char.ofNat (48 + d)

/-- Decimal digits of `n`, most significant first (`[0]` for zero). -/
def serNumDigits (n : Nat) : List Nat :=
  if n = 0 then [0] else (natToRevDigits n n).reverse

def serNum (n : Nat) : List Char := (serNumDigits n).map digitChar

mutual

/-- Compact JSON rendering of a value. -/
def serialize : Json → List Char
  | .jnull => ['n', 'u', 'l', 'l']
  | .jbool true => ['t', 'r', 'u', 'e']
  | .jbool false => ['f', 'a', 'l', 's', 'e']
  | .jnum n => serNum n
  | .jstr s => serStr s
  | .jarr es => '[' :: (serElems es ++ [']'])
  | .jobj fs => '{' :: (serFields fs ++ ['}'])

/-- Array elements, comma-separated. -/
def serElems : List Json → List Char
  | [] => []
  | e :: rest => serialize e ++ serElemsRest rest

def serElemsRest : List Json → List Char
  | [] => []
  | e :: rest => ',' :: (serialize e ++ serElemsRest rest)

/-- Object fields, comma-separated `"key":value` pairs. -/
def serFields : List (List Char × Json) → List Char
  | [] => []
  | kv :: rest => serField kv ++ serFieldsRest rest

def serField : List Char × Json → List Char
  | (k, v) => serStr k ++ ':' :: serialize v

def serFieldsRest : List (List Char × Json) → List Char
  | [] => []
  | kv :: rest => ',' :: (serField kv ++ serFieldsRest rest)

end

def isDigitCh (c : Char) : Bool := 48 ≤ c.toNat && c.toNat ≤ 57

/-- Greedy decimal reader, accumulator style. -/
def parseDigitsAux : List Char → Nat → Nat × List Char
  | [], acc => (acc, [])
  | c :: rest, acc =>
    if isDigitCh c then parseDigitsAux rest (acc * 10 + (c.toNat - 48)) else (acc, c :: rest)

/-- String-literal body reader: consumes up to the closing quote,
unescaping `\c` to `c`. -/
def parseStrBody : List Char → Option (List Char × List Char)
  | [] => none
  | c :: rest =>
    if c = '"' then some ([], rest)
    else if c = '\\' then
      match rest with
      | [] => none
      | e :: rest' => (parseStrBody rest').map (fun p => (e :: p.1, p.2))
    else (parseStrBody rest).map (fun p => (c :: p.1, p.2))

/-- The six mutually recursive readers of the grammar, defined together by
structural recursion on the fuel: all recursive calls step the fuel down,
so one recursion on `Nat` yields the whole family. -/
structure Parsers where
  val : List Char → Option (Json × List Char)
  elems : List Char → Option (Json × List Char)
  elemsRest : List Char → Option (List Json × List Char)
  fields : List Char → Option (Json × List Char)
  fld : List Char → Option ((List Char × Json) × List Char)
  fieldsRest : List Char → Option (List (List Char × Json) × List Char)

def parsers : Nat → Parsers
  | 0 =>
    ⟨fun _ => none, fun _ => none, fun _ => none, fun _ => none, fun _ => none, fun _ => none⟩
  | fuel + 1 =>
    let P := parsers fuel
    { val := fun input =>
        match input with
        | [] => none
        | c :: rest =>
          if c = 'n' then
            match rest with
            | 'u' :: 'l' :: 'l' :: r => some (.jnull, r)
            | _ => none
          else if c = 't' then
            match rest with
            | 'r' :: 'u' :: 'e' :: r => some (.jbool true, r)
            | _ => none
          else if c = 'f' then
            match rest with
            | 'a' :: 'l' :: 's' :: 'e' :: r => some (.jbool false, r)
            | _ => none
          else if c = '"' then
            (parseStrBody rest).map (fun p => (Json.jstr p.1, p.2))
          else if c = '[' then P.elems rest
          else if c = '{' then P.fields rest
          else if isDigitCh c then
            some (.jnum (parseDigitsAux (c :: rest) 0).1, (parseDigitsAux (c :: rest) 0).2)
          else none
      elems := fun input =>
        match input with
        | [] => none
        | c :: rest =>
          if c = ']' then some (.jarr [], rest)
          else
            (P.val (c :: rest)).bind (fun p =>
              (P.elemsRest p.2).map (fun q => (Json.jarr (p.1 :: q.1), q.2)))
      elemsRest := fun input =>
        match input with
        | [] => none
        | c :: rest =>
          if c = ']' then some ([], rest)
          else if c = ',' then
            (P.val rest).bind (fun p =>
              (P.elemsRest p.2).map (fun q => (p.1 :: q.1, q.2)))
          else none
      fields := fun input =>
        match input with
        | [] => none
        | c :: rest =>
          if c = '}' then some (.jobj [], rest)
          else
            (P.fld (c :: rest)).bind (fun p =>
              (P.fieldsRest p.2).map (fun q => (Json.jobj (p.1 :: q.1), q.2)))
      fld := fun input =>
        match input with
        | [] => none
        | c :: rest =>
          if c = '"' then
            (parseStrBody rest).bind (fun p =>
              match p.2 with
              | ':' :: r => (P.val r).map (fun q => ((p.1, q.1), q.2))
              | _ => none)
          else none
      fieldsRest := fun input =>
        match input with
        | [] => none
        | c :: rest =>
          if c = '}' then some ([], rest)
          else if c = ',' then
            (P.fld rest).bind (fun p =>
              (P.fieldsRest p.2).map (fun q => (p.1 :: q.1, q.2)))
          else none }

/-- Reads one JSON value from the front of the input. -/
def parseVal (fuel : Nat) (input : List Char) : Option (Json × List Char) :=
  (parsers fuel).val input

/-- Reads the part of an array after `[`. -/
def parseElems (fuel : Nat) (input : List Char) : Option (Json × List Char) :=
  (parsers fuel).elems input

/-- Reads `, value ... ]` continuations of an array. -/
def parseElemsRest (fuel : Nat) (input : List Char) : Option (List Json × List Char) :=
  (parsers fuel).elemsRest input

/-- Reads the part of an object after `{`. -/
def parseFields (fuel : Nat) (input : List Char) : Option (Json × List Char) :=
  (parsers fuel).fields input

/-- Reads one `"key":value` pair. -/
def parseField (fuel : Nat) (input : List Char) :
    Option ((List Char × Json) × List Char) :=
  (parsers fuel).fld input

/-- Reads `, "key":value ... }` continuations of an object. -/
def parseFieldsRest (fuel : Nat) (input : List Char) :
    Option (List (List Char × Json) × List Char) :=
  (parsers fuel).fieldsRest input

mutual

/-- Fuel bound for the parser: a nesting-aware size of a value. -/
def jsize : Json → Nat
  | .jnull => 1
  | .jbool _ => 1
  | .jnum _ => 1
  | .jstr _ => 1
  | .jarr es => 2 + esize es
  | .jobj fs => 2 + fsize fs

def esize : List Json → Nat
  | [] => 0
  | e :: rest => 1 + jsize e + esize rest

def fsize : List (List Char × Json) → Nat
  | [] => 0
  | kv :: rest => 1 + jsize kv.2 + fsize rest

end

/-- Guard for reading a bare number back: the following byte must not be a
digit (inside arrays and objects it is `,`, `]` or `}`; a struct at top
level serializes as an object, for which the guard is trivial). -/
def numGuard : Json → List Char → Prop
  | .jnum _, rest => ∀ c ∈ rest.head?, isDigitCh c = false
  | _, _ => True

/-- Reads a maximal self-delimited sequence of JSON values (used for the
batches following the header). -/
def parseMany : Nat → List Char → Option (List Json)
  | _, [] => some []
  | 0, _ :: _ => none
  | fuel + 1, c :: rest =>
    (parseVal (fuel + 1) (c :: rest)).bind (fun p =>
      (parseMany fuel p.2).map (fun js => p.1 :: js))

/-- Reader of the trace-file byte stream: one header value followed by the
self-delimited concatenation of the batches. -/
def parseHeaderAndBatches (fuel : Nat) (stream : List Char) : Option (Json × List Json) :=
  (parseVal fuel stream).bind (fun p =>
    (parseMany fuel p.2).map (fun batches => (p.1, batches)))

/-- Fuel bound for reading a batch sequence back. -/
def batchesFuel : List Json → Nat
  | [] => 0
  | b :: bs => jsize b + 1 + batchesFuel bs

end JsonModel

namespace Sinks

open JsonModel

/-!
Embedding of `FileSink::init` and `<FileSink as Sink>::drain` (sinks.rs),
over the JSON model: `serde_json::to_string` of the `Metadata` header and
of each `TimestampedTracePackets` batch is `serialize` of the
corresponding JSON value (structs serialize as JSON objects).
-/

/-- `FileSink` state: the bytes written to the trace file so far. -/
structure FileSink where
  contents : List Char
  deriving Repr

/-- `FileSink::init`: run the caller-supplied reset closure, then write
the JSON-serialized metadata header as the file's first bytes; a reset
failure propagates before anything is written. -/
def FileSink.init {E : Type} (sink : FileSink) (metadata : Json)
    (reset_fun : Except E Unit) : Except E FileSink :=
  match reset_fun with
  | .error e => .error e
  | .ok _ => .ok ⟨sink.contents ++ serialize metadata⟩

/-- `<FileSink as Sink>::drain`: append the JSON-serialized batch, with no
separator bytes. -/
def FileSink.drain (sink : FileSink) (packets : Json) : FileSink :=
  ⟨sink.contents ++ serialize packets⟩

/-- `K` successive `drain` calls, in order. -/
def FileSink.drainAll (sink : FileSink) (batches : List Json) : FileSink :=
  batches.foldl FileSink.drain sink

end Sinks

namespace Parse

mutual

theorem traverse_item_keys (it : Item) (ctx : List String) (assocs : SwAssocs) (gen : Nat) :
    (traverse_item it ctx assocs gen).1.map Prod.fst
      = assocs.map Prod.fst ++ List.range' gen (count_item it) ∧
    (traverse_item it ctx assocs gen).2 = gen + count_item it := by
  match it with
  | .fn name traced stmts =>
    simp only [traverse_item, count_item]
    cases traced with
    | true =>
      rw [if_pos rfl, if_pos rfl]
      have h := traverse_stmts_keys stmts (ctx ++ [name]) (assocs ++ [(gen, ctx ++ [name])]) (gen + 1)
      refine ⟨?_, ?_⟩
      · rw [h.1, Nat.add_comm 1 (count_stmts stmts), List.range'_succ]
        simp
      · rw [h.2]; omega
    | false =>
      rw [if_neg (by simp), if_neg (by simp)]
      have h := traverse_stmts_keys stmts (ctx ++ [name]) assocs gen
      refine ⟨?_, ?_⟩
      · rw [h.1]; simp
      · rw [h.2]; omega
  | .md name content =>
    match content with
    | some items =>
      have h := traverse_items_keys items (ctx ++ [name]) assocs gen
      simpa [traverse_item, count_item] using h
    | none => simp [traverse_item, count_item]
  | .other => simp [traverse_item, count_item]

theorem traverse_stmts_keys (stmts : List Stmt) (ctx : List String) (assocs : SwAssocs) (gen : Nat) :
    (traverse_stmts stmts ctx assocs gen).1.map Prod.fst
      = assocs.map Prod.fst ++ List.range' gen (count_stmts stmts) ∧
    (traverse_stmts stmts ctx assocs gen).2 = gen + count_stmts stmts := by
  match stmts with
  | [] => simp [traverse_stmts, count_stmts]
  | .item it :: rest =>
    have h1 := traverse_item_keys it ctx assocs gen
    have h2 := traverse_stmts_keys rest ctx (traverse_item it ctx assocs gen).1
      (traverse_item it ctx assocs gen).2
    simp only [traverse_stmts, count_stmts]
    refine ⟨?_, ?_⟩
    · rw [h2.1, h1.1, h1.2, List.append_assoc, List.range'_append_1,
        Nat.add_comm (count_stmts rest) (count_item it)]
    · rw [h2.2, h1.2]; omega
  | .othr :: rest =>
    have h := traverse_stmts_keys rest ctx assocs gen
    simpa [traverse_stmts, count_stmts] using h

theorem traverse_items_keys (items : List Item) (ctx : List String) (assocs : SwAssocs) (gen : Nat) :
    (traverse_items items ctx assocs gen).1.map Prod.fst
      = assocs.map Prod.fst ++ List.range' gen (count_items items) ∧
    (traverse_items items ctx assocs gen).2 = gen + count_items items := by
  match items with
  | [] => simp [traverse_items, count_items]
  | it :: rest =>
    have h1 := traverse_item_keys it ctx assocs gen
    have h2 := traverse_items_keys rest ctx (traverse_item it ctx assocs gen).1
      (traverse_item it ctx assocs gen).2
    simp only [traverse_items, count_items]
    refine ⟨?_, ?_⟩
    · rw [h2.1, h1.1, h1.2, List.append_assoc, List.range'_append_1,
        Nat.add_comm (count_items rest) (count_item it)]
    · rw [h2.2, h1.2]; omega

end

theorem mem_int_assocs_iff (tasks : List HwTask) (t : HwTask) (ht : t ∈ tasks) :
    (t.binds, ["app", t.name]) ∈ int_assocs tasks ↔ t.binds ∈ internalExceptions := by
  constructor
  · intro hmem
    rcases List.mem_filterMap.mp hmem with ⟨t', ht', hf⟩
    by_cases hc : ((int_binds tasks).find? (fun b => b = t'.binds)).isSome
    · rw [if_pos hc] at hf
      rcases List.find?_isSome.mp hc with ⟨b, hb, hbeq⟩
      have hb' : b = t'.binds := by simpa using hbeq
      have hmem' : t'.binds ∈ int_binds tasks := hb' ▸ hb
      rw [int_binds, List.partition_eq_filter_filter] at hmem'
      have hint : t'.binds ∈ internalExceptions := by
        simpa using (List.mem_filter.mp hmem').2
      have heq : t'.binds = t.binds := congrArg Prod.fst (Option.some.inj hf)
      exact heq ▸ hint
    · rw [if_neg hc] at hf; exact absurd hf (by simp)
  · intro hint
    refine List.mem_filterMap.mpr ⟨t, ht, ?_⟩
    rw [if_pos ?_]
    refine List.find?_isSome.mpr ⟨t.binds, ?_, by simp⟩
    rw [int_binds, List.partition_eq_filter_filter]
    exact List.mem_filter.mpr ⟨List.mem_map_of_mem HwTask.binds ht, by simpa using hint⟩

theorem lookup_resolve_int_nrs (binds : List String) (oracle : String → Nat) (b : String)
    (hb : b ∈ binds) :
    (resolve_int_nrs binds oracle).lookup b = some (oracle b) := by
  induction binds with
  | nil => cases hb
  | cons x rest ih =>
    simp only [resolve_int_nrs, List.map_cons, List.lookup]
    by_cases hx : b = x
    · subst hx; simp
    · have hx' : (b == x) = false := beq_eq_false_iff_ne.mpr hx
      simp only [hx']
      rcases List.mem_cons.mp hb with h | h
      · exact absurd h hx
      · exact ih h

/-- Shape of a successful `hardware_tasks` run: the internal map is always
`int_assocs tasks` (oracle-free), and the external map is `ext_assocs` of
either the empty number map (no external binds) or the resolved one. -/
theorem hardware_tasks_ok_shape (tasks : List HwTask) (dev : Option (List String))
    (oracle : String → Nat) (built : Bool) (ints : InternalHwAssocs) (exts : ExternalHwAssocs)
    (hres : hardware_tasks tasks dev oracle = .ok (built, ints, exts)) :
    ints = int_assocs tasks ∧
    ((ext_binds tasks).isEmpty = true → exts = ext_assocs tasks []) ∧
    ((ext_binds tasks).isEmpty = false →
      exts = ext_assocs tasks (resolve_int_nrs (ext_binds tasks) oracle)) := by
  match dev with
  | none => exact absurd hres (by simp [hardware_tasks])
  | some segs =>
    by_cases he : (ext_binds tasks).isEmpty
    · simp only [hardware_tasks, if_pos he, Except.ok.injEq, Prod.mk.injEq] at hres
      exact ⟨hres.2.1.symm, fun _ => hres.2.2.symm, fun hf => absurd he (by simp [hf])⟩
    · match segs with
      | [] =>
        simp only [hardware_tasks, if_neg he] at hres
        exact absurd hres (by simp)
      | [c] =>
        simp only [hardware_tasks, if_neg he, Except.ok.injEq, Prod.mk.injEq] at hres
        exact ⟨hres.2.1.symm, fun ht => absurd ht he, fun _ => hres.2.2.symm⟩
      | [c, f] =>
        simp only [hardware_tasks, if_neg he, Except.ok.injEq, Prod.mk.injEq] at hres
        exact ⟨hres.2.1.symm, fun ht => absurd ht he, fun _ => hres.2.2.symm⟩
      | _ :: _ :: _ :: _ =>
        simp only [hardware_tasks, if_neg he] at hres
        exact absurd hres (by simp)

/-- C2: a hardware-task binding lands in the internal map iff its bound
name is one of the ten architecture-internal exception names, mapped
directly to its task path; the internal map is independent of the numeric
oracle (no numeric lookup); every other binding is recorded in the
external map keyed by the resolved vector number together with the task
path and the symbolic name. -/
theorem hardware_tasks_partition_spec (tasks : List HwTask) (dev : Option (List String))
    (oracle : String → Nat) (built : Bool) (ints : InternalHwAssocs) (exts : ExternalHwAssocs)
    (hres : hardware_tasks tasks dev oracle = .ok (built, ints, exts))
    (t : HwTask) (ht : t ∈ tasks) :
    ((t.binds, ["app", t.name]) ∈ ints ↔ t.binds ∈ internalExceptions) ∧
    (t.binds ∉ internalExceptions →
      (oracle t.binds, (["app", t.name], t.binds)) ∈ exts) ∧
    (∀ (oracle' : String → Nat) (built' : Bool) (ints' : InternalHwAssocs)
      (exts' : ExternalHwAssocs),
      hardware_tasks tasks dev oracle' = .ok (built', ints', exts') → ints' = ints) := by
  obtain ⟨hi, hee, hen⟩ := hardware_tasks_ok_shape tasks dev oracle built ints exts hres
  have hext : t.binds ∉ internalExceptions → t.binds ∈ ext_binds tasks := by
    intro hnot
    rw [ext_binds, List.partition_eq_filter_filter]
    refine List.mem_filter.mpr ⟨List.mem_map_of_mem HwTask.binds ht, ?_⟩
    simpa using hnot
  refine ⟨hi ▸ mem_int_assocs_iff tasks t ht, ?_, ?_⟩
  · intro hnot
    have hb := hext hnot
    have hne : (ext_binds tasks).isEmpty = false := by
      rcases h : (ext_binds tasks).isEmpty with _ | _
      · rfl
      · rw [List.isEmpty_iff.mp h] at hb; cases hb
    rw [hen hne]
    refine List.mem_filterMap.mpr ⟨t, ht, ?_⟩
    rw [lookup_resolve_int_nrs _ oracle t.binds hb]
  · intro oracle' built' ints' exts' hres'
    obtain ⟨hi', _, _⟩ := hardware_tasks_ok_shape tasks dev oracle' built' ints' exts' hres'
    rw [hi', hi]

/-- C2 witness: with tasks `tick` bound to `SysTick` and `serial` bound to
`UART0`, device `stm32` and an oracle answering 37, the SysTick binding is
internal and the UART0 binding resolves externally. -/
theorem hardware_tasks_partition_spec_witness :
    ((("SysTick", ["app", "tick"]) ∈
        int_assocs [⟨"tick", "SysTick"⟩, ⟨"serial", "UART0"⟩] ↔
      "SysTick" ∈ internalExceptions) ∧
    ("SysTick" ∉ internalExceptions →
      ((fun _ => 37) "SysTick", (["app", "tick"], "SysTick")) ∈
        ext_assocs [⟨"tick", "SysTick"⟩, ⟨"serial", "UART0"⟩]
          (resolve_int_nrs (ext_binds [⟨"tick", "SysTick"⟩, ⟨"serial", "UART0"⟩])
            (fun _ => 37))) ∧
    (∀ (oracle' : String → Nat) (built' : Bool) (ints' : InternalHwAssocs)
      (exts' : ExternalHwAssocs),
      hardware_tasks [⟨"tick", "SysTick"⟩, ⟨"serial", "UART0"⟩] (some ["stm32"]) oracle' =
        .ok (built', ints', exts') →
      ints' = int_assocs [⟨"tick", "SysTick"⟩, ⟨"serial", "UART0"⟩])) :=
  hardware_tasks_partition_spec [⟨"tick", "SysTick"⟩, ⟨"serial", "UART0"⟩]
    (some ["stm32"]) (fun _ => 37) true
    (int_assocs [⟨"tick", "SysTick"⟩, ⟨"serial", "UART0"⟩])
    (ext_assocs [⟨"tick", "SysTick"⟩, ⟨"serial", "UART0"⟩]
      (resolve_int_nrs (ext_binds [⟨"tick", "SysTick"⟩, ⟨"serial", "UART0"⟩]) (fun _ => 37)))
    (by rfl) ⟨"tick", "SysTick"⟩ (by decide)

/-- C3: when no hardware task binds a peripheral interrupt, resolution
skips numeric resolution entirely: the build collaborator is not invoked
(`false`), the external map is empty, and the call succeeds whatever the
contents of the device argument. -/
theorem hardware_tasks_no_externals (tasks : List HwTask) (segs : List String)
    (oracle : String → Nat) (h : ∀ t ∈ tasks, t.binds ∈ internalExceptions) :
    hardware_tasks tasks (some segs) oracle = .ok (false, int_assocs tasks, []) := by
  have he : (ext_binds tasks).isEmpty := by
    rw [List.isEmpty_iff, ext_binds, List.partition_eq_filter_filter]
    rw [List.filter_eq_nil_iff]
    intro b hb
    rcases List.mem_map.mp hb with ⟨t, ht, rfl⟩
    simpa using h t ht
  have hext : ext_assocs tasks [] = [] := by
    rw [ext_assocs, List.filterMap_eq_nil_iff]
    intro t _
    simp [List.lookup]
  simp only [hardware_tasks, if_pos he, hext]

/-- C3 witness: a single SysTick-bound task, with a garbage three-segment
device argument, resolves successfully with no build and no externals. -/
theorem hardware_tasks_no_externals_witness :
    hardware_tasks [⟨"tick", "SysTick"⟩] (some ["a", "b", "c"]) (fun _ => 0) =
      .ok (false, int_assocs [⟨"tick", "SysTick"⟩], []) :=
  hardware_tasks_no_externals [⟨"tick", "SysTick"⟩] ["a", "b", "c"] (fun _ => 0)
    (by decide)


/-- C10: `TaskResolver::new` panics exactly when the precondition fails —
no app group, an empty group before the app group, or an app group whose
second token is missing or not a group; its `Result` signature never
surfaces these cases as errors. -/
theorem new_panics_iff (tokens : List Token) :
    TaskResolver.new tokens = .panic ↔ new_precondition tokens = false := by
  induction tokens with
  | nil => simp [TaskResolver.new, find_app, new_precondition]
  | cons head rest ih =>
    match head with
    | .tok s =>
      simpa [TaskResolver.new, find_app, new_precondition] using ih
    | .group [] =>
      simp [TaskResolver.new, find_app, new_precondition]
    | .group (first :: more) =>
      by_cases hfirst : first.toStr = "app"
      · match more with
        | [] =>
          simp [TaskResolver.new, find_app, new_precondition, if_pos hfirst]
        | .tok s :: more' =>
          simp [TaskResolver.new, find_app, new_precondition, if_pos hfirst]
        | .group args :: more' =>
          simp [TaskResolver.new, find_app, new_precondition, if_pos hfirst]
      · simpa [TaskResolver.new, find_app, new_precondition, if_neg hfirst] using ih

/-- C1: for an application item containing `N = count_item app` functions
marked `#[trace]`, `software_tasks` yields a map whose keys, in order, are
exactly `0, 1, ..., N - 1`: the ids are assigned by a monotonic counter
starting at 0 in depth-first declaration order, a marked function receiving
its id (mapped to the path of enclosing modules/functions plus its own
name) before its nested items are visited. -/
theorem software_tasks_ids (app : Item) :
    (software_tasks app).map Prod.fst = List.range (count_item app) := by
  have h := traverse_item_keys app [] [] 0
  simpa [software_tasks, List.range_eq_range'] using h.1

end Parse

namespace Sinks

/-- C5: a resolution failure is logged, the batch dropped and `drain`
returns success; on successful resolution the event is serialized and
written, and `drain` fails exactly when serialization or the channel
write fails. -/
theorem frontend_drain_spec {T Ev RErr SerErr IOErr : Type}
    (resolve : T → Except RErr Ev) (toJson : Ev → Except SerErr String)
    (write : String → Except IOErr Unit) (packets : T) :
    (∀ e, resolve packets = .error e →
      FrontendSink.drain resolve toJson write packets = (.ok (), [(packets, e)], [])) ∧
    (∀ ev, resolve packets = .ok ev →
      (((FrontendSink.drain resolve toJson write packets).1 = .ok ()) ↔
        (∃ json, toJson ev = .ok json ∧ write json = .ok ())) ∧
      (∀ json, toJson ev = .ok json → write json = .ok () →
        FrontendSink.drain resolve toJson write packets = (.ok (), [], [json]))) := by
  constructor
  · intro e he
    simp [FrontendSink.drain, he]
  · intro ev hev
    constructor
    · constructor
      · intro hok
        match hj : toJson ev with
        | .error e => simp [FrontendSink.drain, hev, hj] at hok
        | .ok json =>
          refine ⟨json, rfl, ?_⟩
          match hw : write json with
          | .error e => simp [FrontendSink.drain, hev, hj, hw] at hok
          | .ok _ => rfl
      · rintro ⟨json, hj, hw⟩
        simp [FrontendSink.drain, hev, hj, hw]
    · intro json hj hw
      simp [FrontendSink.drain, hev, hj, hw]

/-- C5 witness: concrete instantiation with a failing resolution (logged,
dropped, success) and a succeeding one (serialized and sent). -/
theorem frontend_drain_spec_witness :
    ((fun (b : Nat) => if b = 0 then (Except.error "no map entry" : Except String Nat)
        else .ok (b + 1)) 0 = .error "no map entry" ∧
      FrontendSink.drain
        (fun (b : Nat) => if b = 0 then (Except.error "no map entry" : Except String Nat)
          else .ok (b + 1))
        (fun (ev : Nat) => (Except.ok (toString ev) : Except Unit String))
        (fun (_ : String) => (Except.ok () : Except Unit Unit)) 0 =
        (.ok (), [(0, "no map entry")], [])) ∧
    ((fun (b : Nat) => if b = 0 then (Except.error "no map entry" : Except String Nat)
        else .ok (b + 1)) 7 = .ok 8 ∧
      FrontendSink.drain
        (fun (b : Nat) => if b = 0 then (Except.error "no map entry" : Except String Nat)
          else .ok (b + 1))
        (fun (ev : Nat) => (Except.ok (toString ev) : Except Unit String))
        (fun (_ : String) => (Except.ok () : Except Unit Unit)) 7 =
        (.ok (), [], [toString 8])) := by
  refine ⟨⟨rfl, ?_⟩, ⟨rfl, ?_⟩⟩
  · exact (frontend_drain_spec _ _ _ 0).1 "no map entry" rfl
  · exact ((frontend_drain_spec _ _ _ 7).2 8 rfl).2 (toString 8) rfl rfl

/-- C8: on success the created file is new (no surviving entry had its
name) and is named `<artifact>-g<shortdesc>-<date>.trace`; with the
clear-previous option every previously existing `*.trace` file is deleted
first; if the target name still exists, creation fails instead of
overwriting. -/
theorem generate_trace_file_spec (entries : List DirEntry)
    (artifactName gitShortdesc date : String) (removePrev : Bool) :
    (∀ dir' f, generate_trace_file entries artifactName gitShortdesc date removePrev =
        .ok (dir', f) →
      f = artifactName ++ "-g" ++ gitShortdesc ++ "-" ++ date ++ ".trace" ∧
      (∀ e ∈ clear_prev_traces entries removePrev, e.name ≠ f) ∧
      dir' = clear_prev_traces entries removePrev ++ [⟨f, true⟩]) ∧
    (removePrev = true → find_trace_files (clear_prev_traces entries removePrev) = []) ∧
    ((∃ e ∈ clear_prev_traces entries removePrev,
        e.name = artifactName ++ "-g" ++ gitShortdesc ++ "-" ++ date ++ ".trace") →
      generate_trace_file entries artifactName gitShortdesc date removePrev =
        .error .createNewFailed) := by
  refine ⟨?_, ?_, ?_⟩
  · intro dir' f hok
    by_cases hc : (clear_prev_traces entries removePrev).any
        (fun e => e.name = artifactName ++ "-g" ++ gitShortdesc ++ "-" ++ date ++ TRACE_FILE_EXT)
    · simp only [generate_trace_file, if_pos hc] at hok
      exact absurd hok (by simp)
    · simp only [generate_trace_file, if_neg hc, Except.ok.injEq, Prod.mk.injEq] at hok
      obtain ⟨hdir, hf⟩ := hok
      refine ⟨hf.symm, ?_, ?_⟩
      · intro e he hne
        rw [List.any_eq_true] at hc
        exact hc ⟨e, he, by simp [hne, hf.symm, TRACE_FILE_EXT]⟩
      · rw [← hdir, hf]
  · intro hrp
    rw [find_trace_files, List.filterMap_eq_nil_iff]
    intro e he
    rw [clear_prev_traces, if_pos hrp, List.mem_filter] at he
    have h2 : (e.isFile && e.name.endsWith TRACE_FILE_EXT) = false := by
      have := he.2
      rwa [Bool.not_eq_true'] at this
    simp [h2]
  · rintro ⟨e, he, hname⟩
    have hc : (clear_prev_traces entries removePrev).any
        (fun e => e.name = artifactName ++ "-g" ++ gitShortdesc ++ "-" ++ date ++ TRACE_FILE_EXT) := by
      rw [List.any_eq_true]
      exact ⟨e, he, by simp [hname, TRACE_FILE_EXT]⟩
    simp only [generate_trace_file, if_pos hc]

/-- C8 witness: a directory holding an old trace file and a subdirectory;
with clear-previous set the old trace is removed, the new name is fresh,
and a name collision makes creation fail. -/
theorem generate_trace_file_spec_witness :
    (∀ dir' f, generate_trace_file [⟨"old.trace", true⟩, ⟨"keep.txt", true⟩]
        "blinky" "baadf00-dirty" "2021-06-16T17:13:16" true = .ok (dir', f) →
      f = "blinky" ++ "-g" ++ "baadf00-dirty" ++ "-" ++ "2021-06-16T17:13:16" ++ ".trace" ∧
      (∀ e ∈ clear_prev_traces [⟨"old.trace", true⟩, ⟨"keep.txt", true⟩] true, e.name ≠ f) ∧
      dir' = clear_prev_traces [⟨"old.trace", true⟩, ⟨"keep.txt", true⟩] true ++ [⟨f, true⟩]) ∧
    (true = true → find_trace_files
      (clear_prev_traces [⟨"old.trace", true⟩, ⟨"keep.txt", true⟩] true) = []) ∧
    ((∃ e ∈ clear_prev_traces [⟨"old.trace", true⟩, ⟨"keep.txt", true⟩] true,
        e.name = "blinky" ++ "-g" ++ "baadf00-dirty" ++ "-" ++ "2021-06-16T17:13:16" ++ ".trace") →
      generate_trace_file [⟨"old.trace", true⟩, ⟨"keep.txt", true⟩]
        "blinky" "baadf00-dirty" "2021-06-16T17:13:16" true = .error .createNewFailed) :=
  generate_trace_file_spec [⟨"old.trace", true⟩, ⟨"keep.txt", true⟩]
    "blinky" "baadf00-dirty" "2021-06-16T17:13:16" true

end Sinks

namespace Tty

/-- C6: a failing queued-bytes query yields the unknown state (as does a
failing page-size query); otherwise the warning state carrying
`(P - q, P)` is returned exactly when `P - q < P / 4` and the normal
state carrying `P - q` otherwise; in particular 100 queued bytes at page
size 4096 give a normal state and 900 bytes of remaining headroom give a
warning state. -/
theorem avail_buffer_spec :
    (∀ p, avail_buffer none p = .unknown) ∧
    (∀ q, avail_buffer (some q) none = .unknown) ∧
    (∀ q P, avail_buffer (some q) (some P) =
      if P - q < Int.tdiv P 4 then .availWarn (P - q) P else .avail (P - q)) ∧
    avail_buffer (some 100) (some 4096) = .avail 3996 ∧
    avail_buffer (some (4096 - 900)) (some 4096) = .availWarn 900 4096 := by
  refine ⟨fun p => rfl, fun q => rfl, fun q P => rfl, by decide, by decide⟩

/-- C9: `configure` applies the line speed 115200 unconditionally — for
any requested baud rate (which it never receives) and any prior device
state, the resulting input and output speeds are exactly 115200. -/
theorem configure_fixed_baud (requestedBaud : Nat)
    (inputSet inputClear outputSet outputClear controlSet controlClear
      localSet localClear : Nat) (s : Termios) :
    (configure inputSet inputClear outputSet outputClear controlSet controlClear
      localSet localClear s).ispeed = 115200 ∧
    (configure inputSet inputClear outputSet outputClear controlSet controlClear
      localSet localClear s).ospeed = 115200 :=
  ⟨rfl, rfl⟩

end Tty

namespace Probe

/-- C7: every terminating iteration step of the probe source returns an
item — `some none` (the iterator's end-of-sequence value) is never
produced — and when the decoder completes no batch the step repeats the
blocking read with the updated decoder state. -/
theorem probe_next_never_ends {D T E : Type} (push : D → List Nat → D)
    (pull : D → Option T × D) :
    (∀ (reads : List (Except E (List Nat))) (d : D),
      ProbeSource.next push pull reads d ≠ some none) ∧
    (∀ (bytes : List Nat) (rs : List (Except E (List Nat))) (d d2 : D),
      pull (push d bytes) = (none, d2) →
      ProbeSource.next push pull (.ok bytes :: rs) d = ProbeSource.next push pull rs d2) := by
  constructor
  · intro reads
    induction reads with
    | nil => intro d; simp [ProbeSource.next]
    | cons r rs ih =>
      intro d
      match r with
      | .error e => simp [ProbeSource.next]
      | .ok bytes =>
        simp only [ProbeSource.next]
        match hp : pull (push d bytes) with
        | (some packets, d2) => simp
        | (none, d2) => exact ih d2
  · intro bytes rs d d2 hp
    simp only [ProbeSource.next, hp]

/-- C7 witness: with a decoder that never completes a batch, the step on a
read trace of one successful read reduces to the step on the remaining
(empty) trace with the pushed state. -/
theorem probe_next_never_ends_witness :
    ProbeSource.next (fun (d : Nat) (bs : List Nat) => d + bs.length)
      (fun d => ((none : Option Nat), d))
      ([Except.ok [5]] : List (Except Unit (List Nat))) 0 =
    ProbeSource.next (fun (d : Nat) (bs : List Nat) => d + bs.length)
      (fun d => ((none : Option Nat), d)) [] 1 :=
  (probe_next_never_ends (fun (d : Nat) (bs : List Nat) => d + bs.length)
    (fun d => ((none : Option Nat), d))).2 [5] [] 0 1 rfl

end Probe

namespace JsonModel

theorem jsize_pos (j : Json) : 1 ≤ jsize j := by
  cases j <;> simp [jsize] <;> omega

theorem isDigitCh_ne {c : Char} (h : isDigitCh c = true) :
    c ≠ 'n' ∧ c ≠ 't' ∧ c ≠ 'f' ∧ c ≠ '"' ∧ c ≠ '[' ∧ c ≠ '{' ∧
    c ≠ ']' ∧ c ≠ '}' ∧ c ≠ ',' ∧ c ≠ ':' := by
  refine ⟨?_, ?_, ?_, ?_, ?_, ?_, ?_, ?_, ?_, ?_⟩ <;>
    (rintro rfl; exact absurd h (by decide))

theorem isDigitCh_digitChar {d : Nat} (hd : d < 10) : isDigitCh (digitChar d) = true := by
  interval_cases d <;> decide

theorem toNat_digitChar {d : Nat} (hd : d < 10) : (digitChar d).toNat - 48 = d := by
  interval_cases d <;> decide

theorem parseDigitsAux_digits (ds : List Nat) (rest : List Char) (acc : Nat)
    (hds : ∀ d ∈ ds, d < 10) :
    parseDigitsAux (ds.map digitChar ++ rest) acc =
      parseDigitsAux rest (ds.foldl (fun a d => a * 10 + d) acc) := by
  induction ds generalizing acc with
  | nil => simp
  | cons d ds' ih =>
    have hd : d < 10 := hds d (List.mem_cons_self d ds')
    simp only [List.map_cons, List.cons_append, parseDigitsAux, List.foldl_cons]
    rw [if_pos (isDigitCh_digitChar hd), toNat_digitChar hd]
    exact ih _ (fun x hx => hds x (List.mem_cons_of_mem _ hx))

theorem parseDigitsAux_stop (rest : List Char) (acc : Nat)
    (h : ∀ c ∈ rest.head?, isDigitCh c = false) :
    parseDigitsAux rest acc = (acc, rest) := by
  cases rest with
  | nil => rfl
  | cons c rs =>
    have hc : isDigitCh c = false := h c (by simp)
    simp [parseDigitsAux, hc]

theorem foldr_natToRevDigits (fuel n : Nat) (hn : n ≤ fuel) :
    (natToRevDigits fuel n).foldr (fun d a => a * 10 + d) 0 = n := by
  induction fuel generalizing n with
  | zero =>
    have : n = 0 := by omega
    simp [natToRevDigits, this]
  | succ f ih =>
    by_cases h0 : n = 0
    · simp [natToRevDigits, h0]
    · simp only [natToRevDigits, if_neg h0, List.foldr_cons]
      have hlt : n / 10 < n := Nat.div_lt_self (by omega) (by omega)
      rw [ih (n / 10) (by omega)]
      omega

theorem natToRevDigits_lt (fuel n : Nat) : ∀ d ∈ natToRevDigits fuel n, d < 10 := by
  induction fuel generalizing n with
  | zero => simp [natToRevDigits]
  | succ f ih =>
    by_cases h0 : n = 0
    · simp [natToRevDigits, h0]
    · simp only [natToRevDigits, if_neg h0]
      intro d hd
      rcases List.mem_cons.mp hd with rfl | hmem
      · exact Nat.mod_lt _ (by omega)
      · exact ih _ d hmem

theorem serNumDigits_lt (n : Nat) : ∀ d ∈ serNumDigits n, d < 10 := by
  unfold serNumDigits
  by_cases h0 : n = 0
  · simp [h0]
  · rw [if_neg h0]
    intro d hd
    exact natToRevDigits_lt n n d (List.mem_reverse.mp hd)

theorem serNumDigits_ne_nil (n : Nat) : serNumDigits n ≠ [] := by
  unfold serNumDigits
  by_cases h0 : n = 0
  · simp [h0]
  · rw [if_neg h0]
    intro h
    have h2 : natToRevDigits n n = [] := by
      have := congrArg List.reverse h
      simpa using this
    match hn : n, h0 with
    | m + 1, _ =>
      rw [natToRevDigits, if_neg (by omega)] at h2
      exact absurd h2 (by simp)

theorem foldl_serNumDigits (n : Nat) :
    (serNumDigits n).foldl (fun a d => a * 10 + d) 0 = n := by
  unfold serNumDigits
  by_cases h0 : n = 0
  · simp [h0]
  · rw [if_neg h0, List.foldl_reverse]
    exact foldr_natToRevDigits n n le_rfl

theorem parseStrBody_serialized (s : List Char) (tail : List Char) :
    parseStrBody (s.flatMap escChar ++ ('"' :: tail)) = some (s, tail) := by
  induction s with
  | nil =>
    rw [List.flatMap_nil, List.nil_append, parseStrBody.eq_def]
    simp
  | cons c s' ih =>
    by_cases hc : c = '"' ∨ c = '\\'
    · simp only [List.flatMap_cons, escChar, if_pos hc, List.cons_append, List.append_assoc,
        List.nil_append]
      rw [parseStrBody.eq_def]
      simp [ih]
    · have h1 : c ≠ '"' := fun h => hc (Or.inl h)
      have h2 : c ≠ '\\' := fun h => hc (Or.inr h)
      simp only [List.flatMap_cons, escChar, if_neg hc, List.cons_append, List.nil_append,
        List.append_assoc]
      rw [parseStrBody.eq_def]
      simp [h1, h2, ih]

theorem numGuard_head (j : Json) (c : Char) (rest : List Char) (hc : isDigitCh c = false) :
    numGuard j (c :: rest) := by
  cases j <;> simp [numGuard, hc]

theorem serialize_head (j : Json) :
    ∃ c cs, serialize j = c :: cs ∧ c ≠ ']' ∧ c ≠ '}' ∧ c ≠ ',' := by
  match j with
  | .jnull => exact ⟨'n', _, rfl, by decide, by decide, by decide⟩
  | .jbool true => exact ⟨'t', _, rfl, by decide, by decide, by decide⟩
  | .jbool false => exact ⟨'f', _, rfl, by decide, by decide, by decide⟩
  | .jnum n =>
    match hds : serNumDigits n with
    | [] => exact absurd hds (serNumDigits_ne_nil n)
    | d :: ds =>
      have hd : d < 10 := serNumDigits_lt n d (hds ▸ List.mem_cons_self d ds)
      have hdig := isDigitCh_ne (isDigitCh_digitChar hd)
      exact ⟨digitChar d, ds.map digitChar, by simp [serialize, serNum, hds],
        hdig.2.2.2.2.2.2.1, hdig.2.2.2.2.2.2.2.1, hdig.2.2.2.2.2.2.2.2.1⟩
  | .jstr s => exact ⟨'"', _, rfl, by decide, by decide, by decide⟩
  | .jarr es => exact ⟨'[', _, rfl, by decide, by decide, by decide⟩
  | .jobj fs => exact ⟨'{', _, rfl, by decide, by decide, by decide⟩

theorem serialize_null : serialize .jnull = ['n', 'u', 'l', 'l'] := by rw [serialize.eq_def]

theorem serialize_true : serialize (.jbool true) = ['t', 'r', 'u', 'e'] := by
  rw [serialize.eq_def]

theorem serialize_false : serialize (.jbool false) = ['f', 'a', 'l', 's', 'e'] := by
  rw [serialize.eq_def]

theorem serialize_num (n : Nat) : serialize (.jnum n) = serNum n := by rw [serialize.eq_def]

theorem serialize_str (s : List Char) : serialize (.jstr s) = serStr s := by
  rw [serialize.eq_def]

theorem serialize_arr (es : List Json) :
    serialize (.jarr es) = '[' :: (serElems es ++ [']']) := by rw [serialize.eq_def]

theorem serialize_obj (fs : List (List Char × Json)) :
    serialize (.jobj fs) = '{' :: (serFields fs ++ ['}']) := by rw [serialize.eq_def]

theorem serElems_nil : serElems [] = [] := by rw [serElems.eq_def]

theorem serElems_cons (e : Json) (rest : List Json) :
    serElems (e :: rest) = serialize e ++ serElemsRest rest := by rw [serElems.eq_def]

theorem serElemsRest_nil : serElemsRest [] = [] := by rw [serElemsRest.eq_def]

theorem serElemsRest_cons (e : Json) (rest : List Json) :
    serElemsRest (e :: rest) = ',' :: (serialize e ++ serElemsRest rest) := by
  rw [serElemsRest.eq_def]

theorem serFields_nil : serFields [] = [] := by rw [serFields.eq_def]

theorem serFields_cons (kv : List Char × Json) (rest : List (List Char × Json)) :
    serFields (kv :: rest) = serField kv ++ serFieldsRest rest := by rw [serFields.eq_def]

theorem serField_mk (k : List Char) (v : Json) :
    serField (k, v) = serStr k ++ ':' :: serialize v := by rw [serField.eq_def]

theorem serFieldsRest_nil : serFieldsRest [] = [] := by rw [serFieldsRest.eq_def]

theorem serFieldsRest_cons (kv : List Char × Json) (rest : List (List Char × Json)) :
    serFieldsRest (kv :: rest) = ',' :: (serField kv ++ serFieldsRest rest) := by
  rw [serFieldsRest.eq_def]

theorem esize_cons (e : Json) (rest : List Json) :
    esize (e :: rest) = 1 + jsize e + esize rest := by rw [esize.eq_def]

theorem fsize_cons (kv : List Char × Json) (rest : List (List Char × Json)) :
    fsize (kv :: rest) = 1 + jsize kv.2 + fsize rest := by rw [fsize.eq_def]

theorem jsize_arr (es : List Json) : jsize (.jarr es) = 2 + esize es := by rw [jsize.eq_def]

theorem jsize_obj (fs : List (List Char × Json)) : jsize (.jobj fs) = 2 + fsize fs := by
  rw [jsize.eq_def]
theorem parseVal_succ_cons (fuel : Nat) (c : Char) (rest : List Char) :
    parseVal (fuel + 1) (c :: rest) =
      (if c = 'n' then
        match rest with
        | 'u' :: 'l' :: 'l' :: r => some (.jnull, r)
        | _ => none
      else if c = 't' then
        match rest with
        | 'r' :: 'u' :: 'e' :: r => some (.jbool true, r)
        | _ => none
      else if c = 'f' then
        match rest with
        | 'a' :: 'l' :: 's' :: 'e' :: r => some (.jbool false, r)
        | _ => none
      else if c = '"' then
        (parseStrBody rest).map (fun p => (Json.jstr p.1, p.2))
      else if c = '[' then parseElems fuel rest
      else if c = '{' then parseFields fuel rest
      else if isDigitCh c then
        some (.jnum (parseDigitsAux (c :: rest) 0).1, (parseDigitsAux (c :: rest) 0).2)
      else none) := by
  rfl

theorem parseElems_succ_cons (fuel : Nat) (c : Char) (rest : List Char) :
    parseElems (fuel + 1) (c :: rest) =
      (if c = ']' then some (.jarr [], rest)
      else
        (parseVal fuel (c :: rest)).bind (fun p =>
          (parseElemsRest fuel p.2).map (fun q => (Json.jarr (p.1 :: q.1), q.2)))) := by
  rfl

theorem parseElemsRest_succ_cons (fuel : Nat) (c : Char) (rest : List Char) :
    parseElemsRest (fuel + 1) (c :: rest) =
      (if c = ']' then some ([], rest)
      else if c = ',' then
        (parseVal fuel rest).bind (fun p =>
          (parseElemsRest fuel p.2).map (fun q => (p.1 :: q.1, q.2)))
      else none) := by
  rfl

theorem parseFields_succ_cons (fuel : Nat) (c : Char) (rest : List Char) :
    parseFields (fuel + 1) (c :: rest) =
      (if c = '}' then some (.jobj [], rest)
      else
        (parseField fuel (c :: rest)).bind (fun p =>
          (parseFieldsRest fuel p.2).map (fun q => (Json.jobj (p.1 :: q.1), q.2)))) := by
  rfl

theorem parseField_succ_cons (fuel : Nat) (c : Char) (rest : List Char) :
    parseField (fuel + 1) (c :: rest) =
      (if c = '"' then
        (parseStrBody rest).bind (fun p =>
          match p.2 with
          | ':' :: rest' => (parseVal fuel rest').map (fun q => ((p.1, q.1), q.2))
          | _ => none)
      else none) := by
  rfl

theorem parseFieldsRest_succ_cons (fuel : Nat) (c : Char) (rest : List Char) :
    parseFieldsRest (fuel + 1) (c :: rest) =
      (if c = '}' then some ([], rest)
      else if c = ',' then
        (parseField fuel rest).bind (fun p =>
          (parseFieldsRest fuel p.2).map (fun q => (p.1 :: q.1, q.2)))
      else none) := by
  rfl


/-- Round-trip of the JSON model: a serialized value followed by arbitrary
residual input parses back to exactly that value and residue, for every
sufficient fuel (simultaneously for the six readers of the grammar). -/
theorem parse_serialize_all (fuel : Nat) :
    (∀ j rest, jsize j ≤ fuel → numGuard j rest →
      parseVal fuel (serialize j ++ rest) = some (j, rest)) ∧
    (∀ es rest, esize es + 1 ≤ fuel →
      parseElems fuel (serElems es ++ ']' :: rest) = some (.jarr es, rest)) ∧
    (∀ es rest, esize es + 1 ≤ fuel →
      parseElemsRest fuel (serElemsRest es ++ ']' :: rest) = some (es, rest)) ∧
    (∀ fs rest, fsize fs + 1 ≤ fuel →
      parseFields fuel (serFields fs ++ '}' :: rest) = some (.jobj fs, rest)) ∧
    (∀ k v rest, jsize v + 1 ≤ fuel → numGuard v rest →
      parseField fuel (serField (k, v) ++ rest) = some ((k, v), rest)) ∧
    (∀ fs rest, fsize fs + 1 ≤ fuel →
      parseFieldsRest fuel (serFieldsRest fs ++ '}' :: rest) = some (fs, rest)) := by
  induction fuel with
  | zero =>
    refine ⟨fun j _ h _ => absurd h (by have := jsize_pos j; omega),
      fun _ _ h => absurd h (by omega), fun _ _ h => absurd h (by omega),
      fun _ _ h => absurd h (by omega), fun _ v _ h _ => absurd h (by omega),
      fun _ _ h => absurd h (by omega)⟩
  | succ f ih =>
    obtain ⟨ihA, ihB, ihC, ihD, ihE, ihF⟩ := ih
    refine ⟨?_, ?_, ?_, ?_, ?_, ?_⟩
    · intro j rest hsize hguard
      match j with
      | .jnull =>
        rw [serialize_null]
        simp [parseVal_succ_cons]
      | .jbool true =>
        rw [serialize_true]
        simp [parseVal_succ_cons]
      | .jbool false =>
        rw [serialize_false]
        simp [parseVal_succ_cons]
      | .jnum n =>
        rw [serialize_num, serNum]
        match hds : serNumDigits n with
        | [] => exact absurd hds (serNumDigits_ne_nil n)
        | d :: ds =>
          have hd : d < 10 := serNumDigits_lt n d (hds ▸ List.mem_cons_self d ds)
          have hdig := isDigitCh_digitChar hd
          have hne := isDigitCh_ne hdig
          have hstop : ∀ c ∈ rest.head?, isDigitCh c = false := by
            simpa [numGuard] using hguard
          rw [List.map_cons, List.cons_append, parseVal_succ_cons]
          rw [if_neg hne.1, if_neg hne.2.1, if_neg hne.2.2.1, if_neg hne.2.2.2.1,
            if_neg hne.2.2.2.2.1, if_neg hne.2.2.2.2.2.1, if_pos hdig]
          rw [show digitChar d :: (List.map digitChar ds ++ rest) =
            (List.map digitChar (d :: ds)) ++ rest by simp]
          rw [parseDigitsAux_digits (d :: ds) rest 0 (hds ▸ serNumDigits_lt n),
            parseDigitsAux_stop rest _ hstop, ← hds, foldl_serNumDigits n]
      | .jstr s =>
        rw [serialize_str, serStr, List.cons_append, parseVal_succ_cons]
        rw [if_neg (by decide), if_neg (by decide), if_neg (by decide), if_pos rfl]
        rw [show (s.flatMap escChar ++ ['"']) ++ rest = s.flatMap escChar ++ ('"' :: rest) by
          simp]
        rw [parseStrBody_serialized]
        rfl
      | .jarr es =>
        have hes : esize es + 1 ≤ f := by
          have := jsize_arr es ▸ hsize; omega
        rw [serialize_arr, List.cons_append, parseVal_succ_cons]
        rw [if_neg (by decide), if_neg (by decide), if_neg (by decide), if_neg (by decide),
          if_pos rfl]
        rw [show (serElems es ++ [']']) ++ rest = serElems es ++ (']' :: rest) by simp]
        exact ihB es rest hes
      | .jobj fs =>
        have hfs : fsize fs + 1 ≤ f := by
          have := jsize_obj fs ▸ hsize; omega
        rw [serialize_obj, List.cons_append, parseVal_succ_cons]
        rw [if_neg (by decide), if_neg (by decide), if_neg (by decide), if_neg (by decide),
          if_neg (by decide), if_pos rfl]
        rw [show (serFields fs ++ ['}']) ++ rest = serFields fs ++ ('}' :: rest) by simp]
        exact ihD fs rest hfs
    · intro es rest hsize
      match es with
      | [] =>
        rw [serElems_nil, List.nil_append, parseElems_succ_cons, if_pos rfl]
      | v :: vs =>
        have hsz := esize_cons v vs ▸ hsize
        have hjv := jsize_pos v
        obtain ⟨c, cs, hser, hc1, hc2, hc3⟩ := serialize_head v
        have hg : numGuard v (serElemsRest vs ++ ']' :: rest) := by
          match vs with
          | [] =>
            rw [serElemsRest_nil, List.nil_append]
            exact numGuard_head v _ _ (by decide)
          | w :: ws =>
            rw [serElemsRest_cons, List.cons_append]
            exact numGuard_head v _ _ (by decide)
        rw [serElems_cons, List.append_assoc, hser, List.cons_append, parseElems_succ_cons]
        rw [if_neg hc1, ← List.cons_append, ← hser,
          ihA v (serElemsRest vs ++ ']' :: rest) (by omega) hg]
        simp only [Option.some_bind]
        rw [ihC vs rest (by omega)]
        rfl
    · intro es rest hsize
      match es with
      | [] =>
        rw [serElemsRest_nil, List.nil_append, parseElemsRest_succ_cons, if_pos rfl]
      | v :: vs =>
        have hsz := esize_cons v vs ▸ hsize
        have hjv := jsize_pos v
        have hg : numGuard v (serElemsRest vs ++ ']' :: rest) := by
          match vs with
          | [] =>
            rw [serElemsRest_nil, List.nil_append]
            exact numGuard_head v _ _ (by decide)
          | w :: ws =>
            rw [serElemsRest_cons, List.cons_append]
            exact numGuard_head v _ _ (by decide)
        rw [serElemsRest_cons, List.cons_append, parseElemsRest_succ_cons]
        rw [if_neg (by decide), if_pos rfl, List.append_assoc,
          ihA v (serElemsRest vs ++ ']' :: rest) (by omega) hg]
        simp only [Option.some_bind]
        rw [ihC vs rest (by omega)]
        rfl
    · intro fs rest hsize
      match fs with
      | [] =>
        rw [serFields_nil, List.nil_append, parseFields_succ_cons, if_pos rfl]
      | (k, v) :: kvs =>
        have hsz : 1 + jsize v + fsize kvs + 1 ≤ f + 1 := by
          have := fsize_cons (k, v) kvs ▸ hsize
          simpa using this
        have hjv := jsize_pos v
        have hg : numGuard v (serFieldsRest kvs ++ '}' :: rest) := by
          match kvs with
          | [] =>
            rw [serFieldsRest_nil, List.nil_append]
            exact numGuard_head v _ _ (by decide)
          | w :: ws =>
            rw [serFieldsRest_cons, List.cons_append]
            exact numGuard_head v _ _ (by decide)
        rw [serFields_cons, List.append_assoc, serField_mk, serStr, List.cons_append,
          List.cons_append, parseFields_succ_cons]
        rw [if_neg (by decide), ← List.cons_append, ← List.cons_append, ← serStr, ← serField_mk,
          ihE k v (serFieldsRest kvs ++ '}' :: rest) (by omega) hg]
        simp only [Option.some_bind]
        rw [ihF kvs rest (by omega)]
        rfl
    · intro k v rest hsize hguard
      rw [serField_mk, serStr]
      simp only [List.cons_append, List.append_assoc, List.singleton_append, List.nil_append]
      rw [parseField_succ_cons, if_pos rfl, parseStrBody_serialized]
      simp [ihA v rest (by omega) hguard]
    · intro fs rest hsize
      match fs with
      | [] =>
        rw [serFieldsRest_nil, List.nil_append, parseFieldsRest_succ_cons, if_pos rfl]
      | (k, v) :: kvs =>
        have hsz : 1 + jsize v + fsize kvs + 1 ≤ f + 1 := by
          have := fsize_cons (k, v) kvs ▸ hsize
          simpa using this
        have hjv := jsize_pos v
        have hg : numGuard v (serFieldsRest kvs ++ '}' :: rest) := by
          match kvs with
          | [] =>
            rw [serFieldsRest_nil, List.nil_append]
            exact numGuard_head v _ _ (by decide)
          | w :: ws =>
            rw [serFieldsRest_cons, List.cons_append]
            exact numGuard_head v _ _ (by decide)
        rw [serFieldsRest_cons, List.cons_append, parseFieldsRest_succ_cons]
        rw [if_neg (by decide), if_pos rfl, List.append_assoc,
          ihE k v (serFieldsRest kvs ++ '}' :: rest) (by omega) hg]
        simp only [Option.some_bind]
        rw [ihF kvs rest (by omega)]
        rfl

theorem jsize_null : jsize .jnull = 1 := by rw [jsize.eq_def]

theorem jsize_bool (b : Bool) : jsize (.jbool b) = 1 := by rw [jsize.eq_def]

theorem jsize_num (n : Nat) : jsize (.jnum n) = 1 := by rw [jsize.eq_def]

theorem jsize_str (s : List Char) : jsize (.jstr s) = 1 := by rw [jsize.eq_def]

theorem esize_nil : esize [] = 0 := by rw [esize.eq_def]

theorem fsize_nil : fsize [] = 0 := by rw [fsize.eq_def]

theorem parseMany_serialized (fuel : Nat) (batches : List Json)
    (hobj : ∀ b ∈ batches, ∃ fs, b = Json.jobj fs)
    (hfuel : batchesFuel batches ≤ fuel) :
    parseMany fuel (batches.map serialize).flatten = some batches := by
  induction batches generalizing fuel with
  | nil => cases fuel <;> rfl
  | cons b bs ih =>
    have hsz : jsize b + 1 + batchesFuel bs ≤ fuel := by simpa [batchesFuel] using hfuel
    have hjb := jsize_pos b
    obtain ⟨fs, rfl⟩ := hobj b (List.mem_cons_self b bs)
    match fuel with
    | 0 => omega
    | f + 1 =>
      rw [List.map_cons, List.flatten_cons, serialize_obj, List.cons_append, parseMany]
      rw [← List.cons_append, ← serialize_obj,
        (parse_serialize_all (f + 1)).1 (Json.jobj fs) ((bs.map serialize).flatten)
          (by omega) (by simp [numGuard])]
      simp only [Option.some_bind]
      rw [ih f (fun b hb => hobj b (List.mem_cons_of_mem _ hb)) (by omega)]
      rfl

end JsonModel

namespace Sinks

open JsonModel

theorem drainAll_contents (cs : List Char) (batches : List Json) :
    (FileSink.drainAll ⟨cs⟩ batches).contents = cs ++ (batches.map serialize).flatten := by
  induction batches generalizing cs with
  | nil => simp [FileSink.drainAll]
  | cons b bs ih =>
    have h1 : FileSink.drainAll ⟨cs⟩ (b :: bs) = FileSink.drainAll ⟨cs ++ serialize b⟩ bs := rfl
    rw [h1, ih]
    simp

/-- C4: initializing a `FileSink` with a `Metadata` header and draining K
batches produces exactly the header's JSON followed by the K batches'
JSON in drain order with no separators, and re-parsing that byte stream
as a self-delimited JSON sequence returns the original header and the
original K batches in order.  (`Metadata` and each batch are Rust structs,
hence serialize as JSON objects; the fuel is the parser's termination
budget.) -/
theorem file_sink_roundtrip {E : Type} (metadata : Json) (batches : List Json)
    (reset : Except E Unit) (mfs : List (List Char × Json))
    (hmeta : metadata = Json.jobj mfs)
    (hbatches : ∀ b ∈ batches, ∃ fs, b = Json.jobj fs)
    (hreset : reset = .ok ())
    (fuel : Nat)
    (hfuel : jsize metadata ≤ fuel ∧ batchesFuel batches ≤ fuel) :
    ∃ sink1, FileSink.init ⟨[]⟩ metadata reset = .ok sink1 ∧
      (FileSink.drainAll sink1 batches).contents =
        serialize metadata ++ (batches.map serialize).flatten ∧
      parseHeaderAndBatches fuel (FileSink.drainAll sink1 batches).contents =
        some (metadata, batches) := by
  subst hreset
  refine ⟨⟨serialize metadata⟩, rfl, ?_, ?_⟩
  · rw [show (⟨serialize metadata⟩ : FileSink) = ⟨[] ++ serialize metadata⟩ by simp,
      drainAll_contents]
    simp
  · rw [show (⟨serialize metadata⟩ : FileSink) = ⟨[] ++ serialize metadata⟩ by simp,
      drainAll_contents, List.nil_append, parseHeaderAndBatches,
      (parse_serialize_all fuel).1 metadata ((batches.map serialize).flatten) hfuel.1
        (by subst hmeta; simp [numGuard])]
    simp only [Option.some_bind]
    rw [parseMany_serialized fuel batches hbatches hfuel.2]
    rfl

/-- C4 witness: a two-field header and two object batches round-trip
through the file sink at fuel 64. -/
theorem file_sink_roundtrip_witness :
    ∃ sink1, FileSink.init ⟨[]⟩ (Json.jobj [(['f'], Json.jnum 1)])
        (Except.ok () : Except Unit Unit) = .ok sink1 ∧
      (FileSink.drainAll sink1 [Json.jobj [], Json.jobj [(['b'], Json.jstr ['x'])]]).contents =
        serialize (Json.jobj [(['f'], Json.jnum 1)]) ++
          ([Json.jobj [], Json.jobj [(['b'], Json.jstr ['x'])]].map serialize).flatten ∧
      parseHeaderAndBatches 64
          (FileSink.drainAll sink1 [Json.jobj [], Json.jobj [(['b'], Json.jstr ['x'])]]).contents =
        some (Json.jobj [(['f'], Json.jnum 1)], [Json.jobj [], Json.jobj [(['b'], Json.jstr ['x'])]]) :=
  file_sink_roundtrip (Json.jobj [(['f'], Json.jnum 1)])
    [Json.jobj [], Json.jobj [(['b'], Json.jstr ['x'])]] (Except.ok ()) [(['f'], Json.jnum 1)] rfl
    (by
      intro b hb
      rcases List.mem_cons.mp hb with rfl | hb2
      · exact ⟨[], rfl⟩
      · rcases List.mem_cons.mp hb2 with rfl | h3
        · exact ⟨[(['b'], Json.jstr ['x'])], rfl⟩
        · cases h3)
    rfl 64
    (by
      constructor
      · rw [jsize_obj, fsize_cons, fsize_nil]
        simp [jsize_num]
      · simp [batchesFuel, jsize_obj, fsize_cons, fsize_nil, jsize_str])

end Sinks
